import Mathlib

/-!
Shallow embedding of the hybrid execution broker and its MCP transport client
(`HybridExecutionService`, `HybridMCPClient`, the handler layer in `index.ts`,
and the shared types from `types/execution.ts`).

Conventions of the embedding:
* JavaScript `Record<string, any>` parameter bags become association lists of
  `String × JSVal`; property access on a missing key yields `JSVal.undef`,
  matching JS `undefined`.
* Timestamps are integers (milliseconds since epoch).  The source stores an ISO
  string and parses it back with `new Date(...).getTime()`; at millisecond
  granularity that round trip is the identity, so we keep the integer.
* The `Map<string, ExecutionSpec>` store becomes an association list with the
  usual unique-key invariant; `mapGet`/`mapSet` mirror `Map.get`/`Map.set`
  (set replaces in place, or appends a fresh binding).
* External effects (the axios HTTP GET, status writes on stored specs, frame
  writes and promise settlements in the client) are recorded as explicit event
  traces, and the remote call is an oracle `fetch : String → Except String JsonVal`
  standing for axios (resolving with the response body or rejecting).
-/

set_option maxHeartbeats 1000000

/-- JS scalar values as they appear in parameter bags (`Record<string, any>`). -/
inductive JSVal where
  | str (s : String)
  | num (n : Int)
  | boolean (b : Bool)
  | undef
deriving DecidableEq, Repr

/-- Property access `bag.key` on a JS object: `undefined` when absent. -/
def jsGet (bag : List (String × JSVal)) (key : String) : JSVal :=
  match bag.find? (fun p => p.1 == key) with
  | some p => p.2
  | none => JSVal.undef

/-- Template-literal interpolation of a JS value, as in `${parameters.datasetId}`. -/
def jsTemplate : JSVal → String
  | JSVal.str s => s
  | JSVal.num n => toString n
  | JSVal.boolean b => if b then "true" else "false"
  | JSVal.undef => "undefined"

/-- JS falsiness, as tested by `!args?.datasetId`. -/
def jsFalsy : JSVal → Bool
  | JSVal.str s => s == ""
  | JSVal.num n => n == 0
  | JSVal.boolean b => !b
  | JSVal.undef => true

/-- JSON documents, for the response body the remote collaborator returns. -/
inductive JsonVal where
  | null
  | bool (b : Bool)
  | num (n : Int)
  | str (s : String)
  | arr (xs : List JsonVal)
  | obj (fields : List (String × JsonVal))

/-- `x?.field` — `undefined` unless `x` is an object carrying the field. -/
def jsonGetField : JsonVal → String → Option JsonVal
  | JsonVal.obj fields, key => (fields.find? (fun p => p.1 == key)).map Prod.snd
  | _, _ => none

/-- `x?.[i]` — array index (objects answer the stringified index key). -/
def jsonIndex : JsonVal → Nat → Option JsonVal
  | JsonVal.arr xs, i => xs.get? i
  | JsonVal.obj fields, i => (fields.find? (fun p => p.1 == toString i)).map Prod.snd
  | _, _ => none

/-- JS truthiness of a JSON value (`observations ? ... : 0`). -/
def jsonTruthy : JsonVal → Bool
  | JsonVal.null => false
  | JsonVal.bool b => b
  | JsonVal.num n => n != 0
  | JsonVal.str s => s != ""
  | JsonVal.arr _ => true
  | JsonVal.obj _ => true

/-- `Object.keys(x).length` for the values reachable here (parsed JSON has
distinct keys, so the field count is the key count). -/
def objectKeysLength : JsonVal → Nat
  | JsonVal.obj fields => fields.length
  | JsonVal.arr xs => xs.length
  | JsonVal.str s => s.length
  | _ => 0

/-- Spec lifecycle status (`'pending' | 'executing' | 'success' | 'error'`). -/
inductive SpecStatus where
  | pending
  | executing
  | success
  | error
deriving DecidableEq, Repr

/-- Result status (`'success' | 'error'` in `ExecutionResult`). -/
inductive ResultStatus where
  | success
  | error
deriving DecidableEq, Repr

/-- The `apiCall` descriptor of an `ExecutionSpec` (types/execution.ts). -/
structure ApiCall where
  method : String
  url : String
  params : Option (List (String × String))
  headers : Option (List (String × String))
deriving DecidableEq, Repr

/-- `ExecutionSpec` from types/execution.ts. -/
structure ExecutionSpec where
  executionId : String
  toolName : String
  parameters : List (String × JSVal)
  apiCall : ApiCall
  timestamp : Int
  status : SpecStatus
  ttl : Option Int
deriving DecidableEq, Repr

/-- `ExecutionResult` from types/execution.ts.  `data` is declared optional in
the source type; the claims concern whether it is ever populated. -/
structure ExecutionResult where
  executionId : String
  status : ResultStatus
  recordCount : Option Nat
  data : Option JsonVal
  error : Option String
  executedAt : Option Int

/-- `ExecutionRequest` from types/execution.ts. -/
structure ExecutionRequest where
  toolName : String
  parameters : List (String × JSVal)

def ABS_API_BASE : String := "https://data.api.abs.gov.au"

def DEFAULT_TTL : Int := 15 * 60 * 1000

/-- `Map.get` on the spec store (first binding of the key). -/
def mapGet : List (String × ExecutionSpec) → String → Option ExecutionSpec
  | [], _ => none
  | p :: rest, k => if p.1 = k then some p.2 else mapGet rest k

/-- `Map.set` on the spec store: replace the existing binding in place, else
append a fresh one (JS `Map` iteration order). -/
def mapSet : List (String × ExecutionSpec) → String → ExecutionSpec → List (String × ExecutionSpec)
  | [], k, v => [(k, v)]
  | p :: rest, k, v => if p.1 = k then (k, v) :: rest else p :: mapSet rest k v

/-- Observable effects of a service operation. -/
inductive ServiceEvent where
  | httpGet (url : String)
  | statusWrite (executionId : String) (status : SpecStatus)
deriving DecidableEq, Repr

/-- The `executions` map owned by `HybridExecutionService`. -/
structure ServiceState where
  executions : List (String × ExecutionSpec)

namespace HybridExecutionService

/-- `buildApiCall` (HybridExecutionService): only `query_dataset` is known;
any other tool name throws `Unknown tool`.  Note the dataset identifier is
interpolated into the URL without any validation. -/
def buildApiCall (toolName : String) (parameters : List (String × JSVal)) :
    Except String ApiCall :=
  if toolName = "query_dataset" then
    Except.ok
      { method := "GET"
        url := ABS_API_BASE ++ "/rest/data/" ++ jsTemplate (jsGet parameters "datasetId") ++ "/all"
        params := some [("format", "jsondata"), ("dimensionAtObservation", "AllDimensions")]
        headers := none }
  else
    Except.error ("Unknown tool: " ++ toolName)

/-- `generateExecutionSpec`: build the descriptor, stamp a fresh identifier,
`status = pending` and the default ttl, store the spec, return it.  The fresh
identifier (`crypto.randomUUID()`) and the clock are oracle inputs.  The event
trace records the network calls made: there are none. -/
def generateExecutionSpec (st : ServiceState) (request : ExecutionRequest)
    (freshId : String) (now : Int) :
    Except String (ExecutionSpec × ServiceState × List ServiceEvent) :=
  match buildApiCall request.toolName request.parameters with
  | Except.error e => Except.error e
  | Except.ok apiCall =>
      let spec : ExecutionSpec :=
        { executionId := freshId
          toolName := request.toolName
          parameters := request.parameters
          apiCall := apiCall
          timestamp := now
          status := SpecStatus.pending
          ttl := some DEFAULT_TTL }
      Except.ok (spec, ⟨mapSet st.executions freshId spec⟩, [])

/-- `getExecutionSpec`: a plain `Map.get`; touches nothing. -/
def getExecutionSpec (st : ServiceState) (executionId : String) : Option ExecutionSpec :=
  mapGet st.executions executionId

/-- The URL actually fetched: `url + '?' + new URLSearchParams(params || {})`
(the generated descriptors carry no characters needing percent-encoding). -/
def urlWithParams (c : ApiCall) : String :=
  c.url ++ "?" ++ String.intercalate "&" ((c.params.getD []).map (fun p => p.1 ++ "=" ++ p.2))

/-- `response.data?.data?.dataSets?.[0]?.observations`. -/
def observationsOf (body : JsonVal) : Option JsonVal :=
  (((jsonGetField body "data").bind (fun d => jsonGetField d "dataSets")).bind
      (fun ds => jsonIndex ds 0)).bind
    (fun first => jsonGetField first "observations")

/-- `observations ? Object.keys(observations).length : 0`. -/
def recordCountOf (body : JsonVal) : Nat :=
  match observationsOf body with
  | some obs => if jsonTruthy obs then objectKeysLength obs else 0
  | none => 0

/-- `executeSpec`: look up the spec (structured error result when absent),
write `executing`, perform the one HTTP GET, then write `success` and return a
metadata-only result, or on rejection write `error` and return an error result.
The spec is never removed from the store. -/
def executeSpec (st : ServiceState) (executionId : String) (now : Int)
    (fetch : String → Except String JsonVal) :
    ExecutionResult × ServiceState × List ServiceEvent :=
  match mapGet st.executions executionId with
  | none =>
      ({ executionId := executionId, status := ResultStatus.error, recordCount := none,
         data := none, error := some "Execution spec not found", executedAt := none },
       st, [])
  | some spec =>
      let st1 : ServiceState := ⟨mapSet st.executions executionId { spec with status := SpecStatus.executing }⟩
      let url := urlWithParams spec.apiCall
      match fetch url with
      | Except.ok body =>
          ({ executionId := executionId, status := ResultStatus.success,
             recordCount := some (recordCountOf body), data := none, error := none,
             executedAt := some now },
           ⟨mapSet st1.executions executionId { spec with status := SpecStatus.success }⟩,
           [ServiceEvent.statusWrite executionId SpecStatus.executing,
            ServiceEvent.httpGet url,
            ServiceEvent.statusWrite executionId SpecStatus.success])
      | Except.error msg =>
          ({ executionId := executionId, status := ResultStatus.error,
             recordCount := none, data := none, error := some msg, executedAt := none },
           ⟨mapSet st1.executions executionId { spec with status := SpecStatus.error }⟩,
           [ServiceEvent.statusWrite executionId SpecStatus.executing,
            ServiceEvent.httpGet url,
            ServiceEvent.statusWrite executionId SpecStatus.error])

/-- `cleanupOldSpecs(maxAge = DEFAULT_TTL)`: delete every entry whose age,
`now - creation timestamp`, strictly exceeds `maxAge`; keep the rest. -/
def cleanupOldSpecs (st : ServiceState) (now : Int) (maxAge : Int) : ServiceState :=
  ⟨st.executions.filter (fun p => decide (now - p.2.timestamp ≤ maxAge))⟩

/-- The `Expires In` column of `getExecutionsTable`:
`Math.max(0, (spec.ttl || DEFAULT_TTL) - age)`. -/
def rowExpiresIn (spec : ExecutionSpec) (now : Int) : Int :=
  let age := now - spec.timestamp
  let ttl := match spec.ttl with
    | some t => if t = 0 then DEFAULT_TTL else t
    | none => DEFAULT_TTL
  max 0 (ttl - age)

end HybridExecutionService

/-- `handleQueryDataset` (index.ts): reject unless `args.datasetId` is a
non-empty string, then delegate to `generateExecutionSpec` with the whole
argument bag as parameters. -/
def handleQueryDataset (st : ServiceState) (args : List (String × JSVal))
    (freshId : String) (now : Int) :
    Except String (ExecutionSpec × ServiceState × List ServiceEvent) :=
  if jsFalsy (jsGet args "datasetId") then
    Except.error "datasetId is required and must be a string"
  else
    match jsGet args "datasetId" with
    | JSVal.str _ =>
        HybridExecutionService.generateExecutionSpec st
          { toolName := "query_dataset", parameters := args } freshId now
    | _ => Except.error "datasetId is required and must be a string"

/-- JSON-RPC response shape decoded from a frame (`MCPResponse`). -/
structure RpcError where
  code : Int
  message : String

/-- `MCPResponse` from the client: an id plus result-or-error.  A response
whose id field is absent or zero is JS-falsy and resolves nothing. -/
structure MCPResponse where
  id : Nat
  result : Option JsonVal
  rpcError : Option RpcError

/-- How a pending call's promise is settled. -/
inductive Outcome where
  | response (r : MCPResponse)
  | timeoutErr

/-- Observable effects of a client operation: a framed request written to the
outbound channel, or the settlement of a pending call's promise. -/
inductive ClientEvent where
  | write (id : Nat) (method : String)
  | settle (id : Nat) (o : Outcome)

/-- The mutable fields of `HybridMCPClient`.  `hasServer` models
`this.server !== null`; `responseHandlers` keeps only the pending ids (the
handler closures are opaque — settling one is recorded as an event). -/
structure ClientState where
  hasServer : Bool
  messageId : Nat
  responseHandlers : List Nat
  buffer : List Char
  initialized : Bool

namespace HybridMCPClient

/-- `sendRequest`: throws when no server; otherwise allocates `++messageId`,
registers the handler under that id, and writes the framed request. -/
def sendRequest (s : ClientState) (method : String) :
    Except String (Nat × ClientState × List ClientEvent) :=
  if s.hasServer then
    let id := s.messageId + 1
    Except.ok (id,
      { s with messageId := id, responseHandlers := s.responseHandlers ++ [id] },
      [ClientEvent.write id method])
  else
    Except.error "Client not connected"

/-- `handleResponse`: `if (response.id && this.responseHandlers.has(response.id))`
then delete the handler and invoke it (settling the promise) — else nothing. -/
def handleResponse (s : ClientState) (r : MCPResponse) :
    ClientState × List ClientEvent :=
  if r.id ≠ 0 ∧ r.id ∈ s.responseHandlers then
    ({ s with responseHandlers := s.responseHandlers.erase r.id },
     [ClientEvent.settle r.id (Outcome.response r)])
  else
    (s, [])

/-- The 30-second timeout callback for a call: rejects with a timeout error
only if the handler for that id is still registered. -/
def timeoutFire (s : ClientState) (id : Nat) : ClientState × List ClientEvent :=
  if id ∈ s.responseHandlers then
    ({ s with responseHandlers := s.responseHandlers.erase id },
     [ClientEvent.settle id Outcome.timeoutErr])
  else
    (s, [])

/-- `cleanup`: clear the handler map, drop the buffer, reset the id counter
and the initialized flag.  It settles nothing. -/
def cleanupClient (s : ClientState) : ClientState :=
  { s with responseHandlers := [], initialized := false, buffer := [], messageId := 0 }

/-- `close`: `cleanup` then kill the server process.  Its event trace is the
complete list of promise settlements it performs: none. -/
def close (s : ClientState) : ClientState × List ClientEvent :=
  ({ cleanupClient s with hasServer := false }, [])

/-- `connect` (the state-relevant part): refuses when a server is already
attached, else attaches one.  (The subsequent `initialize` handshake is itself
a `sendRequest`.) -/
def connect (s : ClientState) : Except String ClientState :=
  if s.hasServer then Except.error "Client already connected"
  else Except.ok { s with hasServer := true }

/-- Split a character stream at newline characters: JS `string.split('\n')`.
Always returns at least one (possibly empty) segment. -/
def splitNl : List Char → List (List Char)
  | [] => [[]]
  | c :: rest =>
      match splitNl rest with
      | [] => [[]]
      | seg :: segs =>
          if c = '\n' then [] :: seg :: segs else (c :: seg) :: segs

/-- One iteration of the `for (const line of lines)` loop: skip blank lines
(`if (line.trim())`), best-effort parse, dispatch on success, silently ignore
parse failures.  `parse` is the oracle for `JSON.parse` + the `as MCPResponse`
cast. -/
def processLine (parse : List Char → Option MCPResponse) (s : ClientState)
    (line : List Char) : ClientState × List ClientEvent :=
  if line.any (fun c => !c.isWhitespace) then
    match parse line with
    | some r => handleResponse s r
    | none => (s, [])
  else
    (s, [])

/-- The whole loop body over the complete segments, accumulating settlements
in order. -/
def processLines (parse : List Char → Option MCPResponse) (s : ClientState) :
    List (List Char) → ClientState × List ClientEvent
  | [] => (s, [])
  | line :: rest =>
      let step := processLine parse s line
      let tail := processLines parse step.1 rest
      (tail.1, step.2 ++ tail.2)

/-- `handleData`: append the chunk to the accumulator, split on newline, keep
the final segment (`lines.pop() || ''`) as the new accumulator, and run the
parse-and-dispatch loop over every complete segment. -/
def handleData (parse : List Char → Option MCPResponse) (s : ClientState)
    (data : List Char) : ClientState × List ClientEvent :=
  let segs := splitNl (s.buffer ++ data)
  processLines parse { s with buffer := (segs.getLast?).getD [] } segs.dropLast

end HybridMCPClient

/-! ### Store lemmas -/

namespace HybridExecutionService

theorem mapGet_mapSet_self (m : List (String × ExecutionSpec)) (k : String) (v : ExecutionSpec) :
    mapGet (mapSet m k v) k = some v := by
  induction m with
  | nil => simp [mapSet, mapGet]
  | cons p rest ih =>
      by_cases h : p.1 = k
      · simp [mapSet, h, mapGet]
      · simp [mapSet, h, mapGet, ih]

theorem mapGet_eq_none_of_not_mem (m : List (String × ExecutionSpec)) (k : String)
    (h : k ∉ m.map Prod.fst) : mapGet m k = none := by
  induction m with
  | nil => rfl
  | cons p rest ih =>
      simp only [List.map_cons, List.mem_cons, not_or] at h
      have hne : ¬ p.1 = k := fun hk => h.1 hk.symm
      simp [mapGet, hne, ih h.2]

theorem mapGet_filter_eq_none (m : List (String × ExecutionSpec)) (k : String)
    (q : String × ExecutionSpec → Bool) (h : mapGet m k = none) :
    mapGet (m.filter q) k = none := by
  induction m with
  | nil => rfl
  | cons p rest ih =>
      simp only [mapGet] at h
      by_cases hk : p.1 = k
      · simp [hk] at h
      · rw [if_neg hk] at h
        by_cases hq : q p
        · simp [List.filter, hq, mapGet, hk, ih h]
        · simp [List.filter, hq, ih h]

theorem mapGet_filter_snd (m : List (String × ExecutionSpec)) (k : String)
    (q : ExecutionSpec → Bool) (hnd : (m.map Prod.fst).Nodup) :
    mapGet (m.filter (fun p => q p.2)) k =
      (mapGet m k).bind (fun v => if q v then some v else none) := by
  induction m with
  | nil => rfl
  | cons p rest ih =>
      simp only [List.map_cons, List.nodup_cons] at hnd
      by_cases hk : p.1 = k
      · by_cases hq : q p.2
        · simp [List.filter, hq, mapGet, hk]
        · have hnone : mapGet rest k = none := by
            apply mapGet_eq_none_of_not_mem
            rw [← hk]
            exact hnd.1
          simp [List.filter, hq, mapGet, hk,
            mapGet_filter_eq_none rest k _ hnone]
      · by_cases hq : q p.2
        · simp [List.filter, hq, mapGet, hk, ih hnd.2]
        · simp [List.filter, hq, mapGet, hk, ih hnd.2]

end HybridExecutionService

/-! ### Claim theorems: execution service -/

open HybridExecutionService in
/-- C1: for every execution identifier, the `ExecutionResult` returned by
`executeSpec` never carries the fetched payload: its `data` field is `none` on
every path; the success path carries exactly the count and the completion
timestamp (and no error), the error path exactly an error description (and no
count, no timestamp). -/
theorem c1_executeSpec_result_never_carries_payload
    (st : ServiceState) (id : String) (now : Int)
    (fetch : String → Except String JsonVal) :
    (executeSpec st id now fetch).1.data = none
    ∧ (executeSpec st id now fetch).1.executionId = id
    ∧ ((executeSpec st id now fetch).1.status = ResultStatus.success →
        (executeSpec st id now fetch).1.error = none
        ∧ (∃ n, (executeSpec st id now fetch).1.recordCount = some n)
        ∧ (executeSpec st id now fetch).1.executedAt = some now)
    ∧ ((executeSpec st id now fetch).1.status = ResultStatus.error →
        (executeSpec st id now fetch).1.recordCount = none
        ∧ (executeSpec st id now fetch).1.executedAt = none
        ∧ (∃ msg, (executeSpec st id now fetch).1.error = some msg)) := by
  unfold executeSpec
  cases h : mapGet st.executions id with
  | none => simp
  | some spec =>
      cases hf : fetch (urlWithParams spec.apiCall) with
      | ok body => simp [hf]
      | error msg => simp [hf]

open HybridExecutionService in
/-- C1 witness: concrete success and failure evaluations. -/
theorem c1_witness :
    (executeSpec (⟨[]⟩ : ServiceState) "unknown-id" 7 (fun _ => Except.error "down")).1.data = none
    ∧ (executeSpec (⟨[]⟩ : ServiceState) "unknown-id" 7 (fun _ => Except.error "down")).1.recordCount = none := by
  have h := c1_executeSpec_result_never_carries_payload (⟨[]⟩ : ServiceState) "unknown-id" 7
    (fun _ => Except.error "down")
  exact ⟨h.1, (h.2.2.2 rfl).1⟩

open HybridExecutionService in
/-- C2: a successful `generateExecutionSpec` returns a spec with
`status = pending` carrying the supplied fresh identifier, stores exactly that
spec under that identifier, and emits no events at all (in particular no HTTP
request); two successful calls supplied distinct fresh identifiers yield specs
with distinct identifiers. -/
theorem c2_generateSpec_pending_unique_stored_offline
    (st : ServiceState) (req : ExecutionRequest) (freshId : String) (now : Int)
    (spec : ExecutionSpec) (st2 : ServiceState) (ev : List ServiceEvent)
    (h : generateExecutionSpec st req freshId now = Except.ok (spec, st2, ev)) :
    spec.status = SpecStatus.pending
    ∧ spec.executionId = freshId
    ∧ st2.executions = mapSet st.executions freshId spec
    ∧ mapGet st2.executions freshId = some spec
    ∧ ev = []
    ∧ (∀ st' req2 freshId2 now2 spec2 st3 ev2,
        generateExecutionSpec st' req2 freshId2 now2 = Except.ok (spec2, st3, ev2) →
        freshId ≠ freshId2 → spec.executionId ≠ spec2.executionId) := by
  unfold generateExecutionSpec at h
  cases hb : buildApiCall req.toolName req.parameters with
  | error e => rw [hb] at h; exact absurd h (by simp)
  | ok apiCall =>
      rw [hb] at h
      simp only [Except.ok.injEq, Prod.mk.injEq] at h
      obtain ⟨hspec, hst2, hev⟩ := h
      subst hspec
      refine ⟨rfl, rfl, by rw [← hst2], ?_, hev.symm, ?_⟩
      · rw [← hst2]
        exact mapGet_mapSet_self st.executions freshId _
      · intro st' req2 freshId2 now2 spec2 st3 ev2 h2 hne
        unfold generateExecutionSpec at h2
        cases hb2 : buildApiCall req2.toolName req2.parameters with
        | error e => rw [hb2] at h2; exact absurd h2 (by simp)
        | ok apiCall2 =>
            rw [hb2] at h2
            simp only [Except.ok.injEq, Prod.mk.injEq] at h2
            obtain ⟨hspec2, -, -⟩ := h2
            subst hspec2
            simpa using hne

/-- The spec produced by a concrete `generateExecutionSpec` call, spelled out. -/
def c2SpecInstance : ExecutionSpec :=
  { executionId := "exec-1"
    toolName := "query_dataset"
    parameters := [("datasetId", JSVal.str "C21_G01_LGA")]
    apiCall :=
      { method := "GET"
        url := "https://data.api.abs.gov.au/rest/data/C21_G01_LGA/all"
        params := some [("format", "jsondata"), ("dimensionAtObservation", "AllDimensions")]
        headers := none }
    timestamp := 100
    status := SpecStatus.pending
    ttl := some DEFAULT_TTL }

open HybridExecutionService in
/-- C2 witness: a concrete generation call yields a pending spec under the
supplied identifier with an empty event trace. -/
theorem c2_witness :
    c2SpecInstance.status = SpecStatus.pending
    ∧ c2SpecInstance.executionId = "exec-1"
    ∧ mapGet [("exec-1", c2SpecInstance)] "exec-1" = some c2SpecInstance := by
  have h := c2_generateSpec_pending_unique_stored_offline (⟨[]⟩ : ServiceState)
    ⟨"query_dataset", [("datasetId", JSVal.str "C21_G01_LGA")]⟩ "exec-1" 100
    c2SpecInstance ⟨[("exec-1", c2SpecInstance)]⟩ [] (by rfl)
  exact ⟨h.1, h.2.1, h.2.2.2.1⟩

open HybridExecutionService in
/-- C3 counterexample: with toolName `query_dataset` and a parameter bag that
lacks a `datasetId` entirely, `generateExecutionSpec` does NOT fail — it
produces a spec, interpolating the JS string `undefined` into the URL. -/
theorem c3_counterexample :
    (generateExecutionSpec (⟨[]⟩ : ServiceState)
        ⟨"query_dataset", []⟩ "id-0001" 0).isOk = true
    ∧ ((generateExecutionSpec (⟨[]⟩ : ServiceState)
          ⟨"query_dataset", []⟩ "id-0001" 0).toOption.map
        (fun x => x.1.apiCall.url)) =
      some "https://data.api.abs.gov.au/rest/data/undefined/all" := by
  exact ⟨rfl, rfl⟩

open HybridExecutionService in
/-- C3 amended: `generateExecutionSpec` itself validates only the tool name —
an unknown tool fails with a validation error, while `query_dataset` with a
missing `datasetId` still succeeds; the non-empty-string `datasetId` check is
enforced one layer up, by the request handler `handleQueryDataset`, which
rejects any argument bag without a non-empty string `datasetId` and otherwise
delegates to `generateExecutionSpec`. -/
theorem c3_validation_split
    (st : ServiceState) (args : List (String × JSVal)) (freshId : String) (now : Int) :
    (∀ toolName params, toolName ≠ "query_dataset" →
        generateExecutionSpec st ⟨toolName, params⟩ freshId now =
          Except.error ("Unknown tool: " ++ toolName))
    ∧ ((generateExecutionSpec st ⟨"query_dataset", args⟩ freshId now).isOk = true)
    ∧ ((match jsGet args "datasetId" with
        | JSVal.str s => s = ""
        | _ => True) →
        handleQueryDataset st args freshId now =
          Except.error "datasetId is required and must be a string")
    ∧ (∀ s, jsGet args "datasetId" = JSVal.str s → s ≠ "" →
        handleQueryDataset st args freshId now =
          generateExecutionSpec st ⟨"query_dataset", args⟩ freshId now) := by
  refine ⟨?_, ?_, ?_, ?_⟩
  · intro toolName params hne
    unfold generateExecutionSpec buildApiCall
    rw [if_neg hne]
  · unfold generateExecutionSpec buildApiCall
    rw [if_pos rfl]
    rfl
  · intro hbad
    unfold handleQueryDataset
    cases hd : jsGet args "datasetId" with
    | str s =>
        rw [hd] at hbad
        simp only [hbad]
        simp [jsFalsy]
    | num n => simp [jsFalsy]
    | boolean b => simp [jsFalsy]
    | undef => simp [jsFalsy, hd]
  · intro s hd hs
    unfold handleQueryDataset
    rw [hd]
    simp [jsFalsy, hs]

open HybridExecutionService in
/-- C3 witness: concrete instances of the amended statement. -/
theorem c3_witness :
    generateExecutionSpec (⟨[]⟩ : ServiceState) ⟨"other_tool", []⟩ "i" 0 =
      Except.error "Unknown tool: other_tool"
    ∧ handleQueryDataset (⟨[]⟩ : ServiceState) [] "i" 0 =
        Except.error "datasetId is required and must be a string"
    ∧ handleQueryDataset (⟨[]⟩ : ServiceState) [("datasetId", JSVal.str "X")] "i" 0 =
        generateExecutionSpec (⟨[]⟩ : ServiceState)
          ⟨"query_dataset", [("datasetId", JSVal.str "X")]⟩ "i" 0 := by
  have h1 := (c3_validation_split (⟨[]⟩ : ServiceState) [] "i" 0).1 "other_tool" [] (by decide)
  have h2 := (c3_validation_split (⟨[]⟩ : ServiceState) [] "i" 0).2.2.1 trivial
  have h3 := (c3_validation_split (⟨[]⟩ : ServiceState) [("datasetId", JSVal.str "X")] "i" 0).2.2.2
    "X" rfl (by decide)
  exact ⟨h1, h2, h3⟩

open HybridExecutionService in
/-- C4: for an identifier absent from the store, `executeSpec` returns the
structured not-found error result, leaves the store exactly as it was, and
performs no status write and no HTTP request (empty event trace). -/
theorem c4_executeSpec_unknown_id
    (st : ServiceState) (id : String) (now : Int)
    (fetch : String → Except String JsonVal)
    (h : mapGet st.executions id = none) :
    executeSpec st id now fetch =
      ({ executionId := id, status := ResultStatus.error, recordCount := none,
         data := none, error := some "Execution spec not found", executedAt := none },
       st, []) := by
  unfold executeSpec
  rw [h]

open HybridExecutionService in
/-- C4 witness: `executeSpec` on an empty store. -/
theorem c4_witness :
    executeSpec (⟨[]⟩ : ServiceState) "unknown-id" 0 (fun _ => Except.error "net down") =
      ({ executionId := "unknown-id", status := ResultStatus.error, recordCount := none,
         data := none, error := some "Execution spec not found", executedAt := none },
       (⟨[]⟩ : ServiceState), []) :=
  c4_executeSpec_unknown_id ⟨[]⟩ "unknown-id" 0 (fun _ => Except.error "net down") rfl

open HybridExecutionService in
/-- C5: when the remote call rejects, `executeSpec` returns an error result
carrying the message (it does not throw), the stored spec transitions to
`error` but stays in the store, and re-invoking `executeSpec` on the same
identifier re-enters `executing`, performs the HTTP request again, and
succeeds when the remote call now resolves. -/
theorem c5_remote_failure_then_rerun
    (st : ServiceState) (id : String) (now : Int)
    (fetch : String → Except String JsonVal) (spec : ExecutionSpec) (msg : String)
    (h1 : mapGet st.executions id = some spec)
    (h2 : fetch (urlWithParams spec.apiCall) = Except.error msg) :
    (executeSpec st id now fetch).1.status = ResultStatus.error
    ∧ (executeSpec st id now fetch).1.error = some msg
    ∧ mapGet (executeSpec st id now fetch).2.1.executions id =
        some { spec with status := SpecStatus.error }
    ∧ (executeSpec st id now fetch).2.2 =
        [ServiceEvent.statusWrite id SpecStatus.executing,
         ServiceEvent.httpGet (urlWithParams spec.apiCall),
         ServiceEvent.statusWrite id SpecStatus.error]
    ∧ (∀ now2 fetch2 body, fetch2 (urlWithParams spec.apiCall) = Except.ok body →
        (executeSpec (executeSpec st id now fetch).2.1 id now2 fetch2).1.status =
            ResultStatus.success
        ∧ (executeSpec (executeSpec st id now fetch).2.1 id now2 fetch2).1.recordCount =
            some (recordCountOf body)
        ∧ (executeSpec (executeSpec st id now fetch).2.1 id now2 fetch2).2.2 =
            [ServiceEvent.statusWrite id SpecStatus.executing,
             ServiceEvent.httpGet (urlWithParams spec.apiCall),
             ServiceEvent.statusWrite id SpecStatus.success]) := by
  have hrun : executeSpec st id now fetch =
      ({ executionId := id, status := ResultStatus.error, recordCount := none,
         data := none, error := some msg, executedAt := none },
       ⟨mapSet (mapSet st.executions id { spec with status := SpecStatus.executing }) id
          { spec with status := SpecStatus.error }⟩,
       [ServiceEvent.statusWrite id SpecStatus.executing,
        ServiceEvent.httpGet (urlWithParams spec.apiCall),
        ServiceEvent.statusWrite id SpecStatus.error]) := by
    unfold executeSpec
    simp only [h1, h2]
  rw [hrun]
  have hget : mapGet (mapSet (mapSet st.executions id
      { spec with status := SpecStatus.executing }) id
      { spec with status := SpecStatus.error }) id =
      some { spec with status := SpecStatus.error } :=
    mapGet_mapSet_self _ id _
  refine ⟨rfl, rfl, hget, rfl, ?_⟩
  intro now2 fetch2 body hb
  unfold executeSpec
  simp only [hget]
  have hurl : urlWithParams ({ spec with status := SpecStatus.error } : ExecutionSpec).apiCall =
      urlWithParams spec.apiCall := rfl
  rw [hurl, hb]
  exact ⟨rfl, rfl, rfl⟩

/-- A concrete stored spec for exercising `executeSpec`. -/
def c5SpecInstance : ExecutionSpec :=
  { executionId := "e1"
    toolName := "query_dataset"
    parameters := [("datasetId", JSVal.str "ABC")]
    apiCall :=
      { method := "GET"
        url := "https://data.api.abs.gov.au/rest/data/ABC/all"
        params := some [("format", "jsondata"), ("dimensionAtObservation", "AllDimensions")]
        headers := none }
    timestamp := 0
    status := SpecStatus.pending
    ttl := some DEFAULT_TTL }

/-- A concrete remote response body with two observations. -/
def c5Body : JsonVal :=
  JsonVal.obj [("data", JsonVal.obj [("dataSets", JsonVal.arr
    [JsonVal.obj [("observations", JsonVal.obj
      [("0:0:0", JsonVal.num 11), ("1:0:0", JsonVal.num 22)])]])])]

open HybridExecutionService in
/-- C5 witness: a failing remote call then a successful re-run on the same id. -/
theorem c5_witness :
    (executeSpec ⟨[("e1", c5SpecInstance)]⟩ "e1" 3
        (fun _ => Except.error "ABS API Error: 404")).1.status = ResultStatus.error
    ∧ (executeSpec
        (executeSpec ⟨[("e1", c5SpecInstance)]⟩ "e1" 3
          (fun _ => Except.error "ABS API Error: 404")).2.1 "e1" 9
        (fun _ => Except.ok c5Body)).1.status = ResultStatus.success
    ∧ (executeSpec
        (executeSpec ⟨[("e1", c5SpecInstance)]⟩ "e1" 3
          (fun _ => Except.error "ABS API Error: 404")).2.1 "e1" 9
        (fun _ => Except.ok c5Body)).1.recordCount = some 2 := by
  have h := c5_remote_failure_then_rerun ⟨[("e1", c5SpecInstance)]⟩ "e1" 3
    (fun _ => Except.error "ABS API Error: 404") c5SpecInstance "ABS API Error: 404"
    rfl rfl
  have h2 := h.2.2.2.2 9 (fun _ => Except.ok c5Body) c5Body rfl
  refine ⟨h.1, h2.1, ?_⟩
  rw [h2.2.1]
  rfl

open HybridExecutionService in
/-- C6: `cleanupOldSpecs` is a pure age-threshold filter over creation
timestamps: an identifier survives the sweep exactly when its spec's age
`now - timestamp` does not strictly exceed `maxAge`, and a surviving spec is
returned completely unchanged. -/
theorem c6_sweep_is_pure_age_filter
    (st : ServiceState) (now maxAge : Int) (id : String)
    (hnd : (st.executions.map Prod.fst).Nodup) :
    mapGet (cleanupOldSpecs st now maxAge).executions id =
      match mapGet st.executions id with
      | some spec => if now - spec.timestamp > maxAge then none else some spec
      | none => none := by
  unfold cleanupOldSpecs
  rw [mapGet_filter_snd st.executions id (fun v => decide (now - v.timestamp ≤ maxAge)) hnd]
  cases mapGet st.executions id with
  | none => rfl
  | some spec =>
      by_cases h : now - spec.timestamp ≤ maxAge
      · have h2 : ¬ (maxAge < now - spec.timestamp) := not_lt.mpr h
        simp [h, h2]
        omega
      · have h2 : maxAge < now - spec.timestamp := lt_of_not_ge h
        simp [h, h2]
        omega

/-- Three specs seeded at ages `0`, `2·maxAge` and `maxAge/2` (the spec's own
litmus scenario, with `maxAge = 1000`, `now = 10000`). -/
def c6SpecAt (i : String) (ts : Int) : ExecutionSpec :=
  { executionId := i
    toolName := "query_dataset"
    parameters := []
    apiCall := { method := "GET", url := "u", params := none, headers := none }
    timestamp := ts
    status := SpecStatus.pending
    ttl := some DEFAULT_TTL }

def c6Store : ServiceState :=
  ⟨[("a", c6SpecAt "a" 10000), ("b", c6SpecAt "b" 8000), ("c", c6SpecAt "c" 9500)]⟩

open HybridExecutionService in
/-- C6 witness: after the sweep only the too-old middle spec is absent. -/
theorem c6_witness :
    mapGet (cleanupOldSpecs c6Store 10000 1000).executions "a" = some (c6SpecAt "a" 10000)
    ∧ mapGet (cleanupOldSpecs c6Store 10000 1000).executions "b" = none
    ∧ mapGet (cleanupOldSpecs c6Store 10000 1000).executions "c" = some (c6SpecAt "c" 9500) := by
  have ha := c6_sweep_is_pure_age_filter c6Store 10000 1000 "a" (by decide)
  have hb := c6_sweep_is_pure_age_filter c6Store 10000 1000 "b" (by decide)
  have hc := c6_sweep_is_pure_age_filter c6Store 10000 1000 "c" (by decide)
  exact ⟨ha.trans (by decide), hb.trans (by decide), hc.trans (by decide)⟩

/-- Rewrite every stored spec's ttl field (while keeping everything else). -/
def setTtlAll (st : ServiceState) (t : Option Int) : ServiceState :=
  ⟨st.executions.map (fun p => (p.1, { p.2 with ttl := t }))⟩

namespace HybridExecutionService

theorem filter_age_commutes_with_ttl_rewrite
    (m : List (String × ExecutionSpec)) (t : Option Int) (now maxAge : Int) :
    (m.map (fun p => (p.1, { p.2 with ttl := t }))).filter
        (fun p => decide (now - p.2.timestamp ≤ maxAge)) =
      (m.filter (fun p => decide (now - p.2.timestamp ≤ maxAge))).map
        (fun p => (p.1, { p.2 with ttl := t })) := by
  induction m with
  | nil => rfl
  | cons p rest ih =>
      by_cases h : now ≤ maxAge + p.2.timestamp
      · simp [List.filter_cons, h]
        simpa using ih
      · simp [List.filter_cons, h]
        simpa using ih

end HybridExecutionService

open HybridExecutionService in
/-- C10: every generated spec is stamped with the same default ttl of
15 minutes; the sweep's keep-or-remove verdict is entirely insensitive to the
ttl field (rewriting every spec's ttl commutes with the sweep); and the ttl
feeds only the displayed expiry countdown of the executions table,
`max 0 (ttl - age)`. -/
theorem c10_ttl_influences_display_only :
    (∀ st req freshId now spec st2 ev,
        generateExecutionSpec st req freshId now = Except.ok (spec, st2, ev) →
        spec.ttl = some DEFAULT_TTL)
    ∧ DEFAULT_TTL = 15 * 60 * 1000
    ∧ (∀ st t now maxAge,
        (cleanupOldSpecs (setTtlAll st t) now maxAge).executions =
          (setTtlAll (cleanupOldSpecs st now maxAge) t).executions)
    ∧ (∀ (spec : ExecutionSpec) (now t : Int),
        rowExpiresIn { spec with ttl := some t } now =
          max 0 ((if t = 0 then DEFAULT_TTL else t) - (now - spec.timestamp))) := by
  refine ⟨?_, rfl, ?_, ?_⟩
  · intro st req freshId now spec st2 ev h
    unfold generateExecutionSpec at h
    cases hb : buildApiCall req.toolName req.parameters with
    | error e => rw [hb] at h; exact absurd h (by simp)
    | ok apiCall =>
        rw [hb] at h
        simp only [Except.ok.injEq, Prod.mk.injEq] at h
        obtain ⟨hspec, -, -⟩ := h
        subst hspec
        rfl
  · intro st t now maxAge
    unfold cleanupOldSpecs setTtlAll
    exact filter_age_commutes_with_ttl_rewrite st.executions t now maxAge
  · intro spec now t
    rfl

open HybridExecutionService in
/-- C10 witness: the concrete generated spec is stamped with the 15-minute
default; a ttl rewrite on a swept store commutes; the displayed countdown
follows the ttl. -/
theorem c10_witness :
    c2SpecInstance.ttl = some DEFAULT_TTL
    ∧ (cleanupOldSpecs (setTtlAll c6Store (some 1)) 10000 1000).executions =
        (setTtlAll (cleanupOldSpecs c6Store 10000 1000) (some 1)).executions
    ∧ rowExpiresIn { c6SpecAt "a" 9000 with ttl := some 2500 } 10000 = 1500 := by
  have h1 := c10_ttl_influences_display_only.1 (⟨[]⟩ : ServiceState)
    ⟨"query_dataset", [("datasetId", JSVal.str "C21_G01_LGA")]⟩ "exec-1" 100
    c2SpecInstance ⟨[("exec-1", c2SpecInstance)]⟩ [] (by rfl)
  have h2 := c10_ttl_influences_display_only.2.2.1 c6Store (some 1) 10000 1000
  have h3 := c10_ttl_influences_display_only.2.2.2 (c6SpecAt "a" 9000) 10000 2500
  exact ⟨h1, h2, h3.trans (by decide)⟩

/-! ### Claim theorems: MCP client transport -/

open HybridMCPClient in
/-- C7 counterexample: a first `sendRequest` allocates correlation id 1; after
`close` (which resets `messageId` to 0 via `cleanup`) and a reconnect, the next
`sendRequest` allocates id 1 again — the identifier IS reused within the
process lifetime across a close followed by a reconnect. -/
theorem c7_counterexample :
    sendRequest
        { hasServer := true, messageId := 0, responseHandlers := [],
          buffer := [], initialized := true } "tools/list" =
      Except.ok (1,
        { hasServer := true, messageId := 1, responseHandlers := [1],
          buffer := [], initialized := true },
        [ClientEvent.write 1 "tools/list"])
    ∧ connect (close
        { hasServer := true, messageId := 1, responseHandlers := [1],
          buffer := [], initialized := true }).1 =
      Except.ok
        { hasServer := true, messageId := 0, responseHandlers := [],
          buffer := [], initialized := false }
    ∧ (sendRequest
        { hasServer := true, messageId := 0, responseHandlers := [],
          buffer := [], initialized := false } "tools/list").toOption.map
          (fun x => x.1) = some 1 := by
  exact ⟨rfl, rfl, rfl⟩

open HybridMCPClient in
/-- C7 amended: each `sendRequest` allocates `messageId + 1`, strictly greater
than every identifier allocated since the last counter reset, and never reuses
an id while the connection is open; but `cleanup` (run by `close` and on
server exit) resets the counter to 0, so identifiers are reused after a close
followed by a reconnect. -/
theorem c7_send_ids_increase_until_cleanup :
    (∀ (s : ClientState) (method : String) (id : Nat) (s2 : ClientState)
        (ev : List ClientEvent),
        sendRequest s method = Except.ok (id, s2, ev) →
        id = s.messageId + 1 ∧ s2.messageId = s.messageId + 1 ∧ s.messageId < id
        ∧ s2.responseHandlers = s.responseHandlers ++ [id]
        ∧ ev = [ClientEvent.write id method])
    ∧ (∀ s : ClientState, (cleanupClient s).messageId = 0 ∧ (close s).1.messageId = 0)
    ∧ (∀ (s : ClientState) (m1 m2 : String) (id1 : Nat) (s1 : ClientState)
        (ev1 : List ClientEvent) (id2 : Nat) (s2 : ClientState) (ev2 : List ClientEvent),
        sendRequest s m1 = Except.ok (id1, s1, ev1) →
        sendRequest s1 m2 = Except.ok (id2, s2, ev2) →
        id1 < id2) := by
  have hsend : ∀ (s : ClientState) (method : String) (id : Nat) (s2 : ClientState)
      (ev : List ClientEvent),
      sendRequest s method = Except.ok (id, s2, ev) →
      id = s.messageId + 1 ∧ s2.messageId = s.messageId + 1 ∧ s.messageId < id
      ∧ s2.responseHandlers = s.responseHandlers ++ [id]
      ∧ ev = [ClientEvent.write id method] := by
    intro s method id s2 ev h
    unfold sendRequest at h
    by_cases hs : s.hasServer
    · rw [if_pos hs] at h
      simp only [Except.ok.injEq, Prod.mk.injEq] at h
      obtain ⟨hid, hs2, hev⟩ := h
      subst hid
      refine ⟨rfl, ?_, Nat.lt_succ_self _, ?_, hev.symm⟩
      · rw [← hs2]
      · rw [← hs2]
    · rw [if_neg hs] at h
      exact absurd h (by simp)
  refine ⟨hsend, fun s => ⟨rfl, rfl⟩, ?_⟩
  intro s m1 m2 id1 s1 ev1 id2 s2 ev2 h1 h2
  obtain ⟨hid1, hmsg1, -, -, -⟩ := hsend s m1 id1 s1 ev1 h1
  obtain ⟨hid2, -, -, -, -⟩ := hsend s1 m2 id2 s2 ev2 h2
  omega

open HybridMCPClient in
/-- C7 witness: a concrete send on a connected client. -/
theorem c7_witness :
    (1 : Nat) = 0 + 1 ∧ (0 : Nat) < 1 := by
  have h := c7_send_ids_increase_until_cleanup.1
    { hasServer := true, messageId := 0, responseHandlers := [],
      buffer := [], initialized := true } "tools/list" 1
    { hasServer := true, messageId := 1, responseHandlers := [1],
      buffer := [], initialized := true } [ClientEvent.write 1 "tools/list"] rfl
  exact ⟨h.1, h.2.2.1⟩

open HybridMCPClient in
/-- C8 counterexample: with call 1 still pending, `close` settles nothing (its
settlement trace is empty — no cancellation error is delivered) while clearing
the handler map, and the call's armed timeout, firing after the close, also
settles nothing: the waiter for call 1 is left unresolved forever. -/
theorem c8_counterexample :
    (close { hasServer := true, messageId := 1, responseHandlers := [1],
             buffer := [], initialized := true }).2 = []
    ∧ (close { hasServer := true, messageId := 1, responseHandlers := [1],
               buffer := [], initialized := true }).1.responseHandlers = []
    ∧ (timeoutFire (close { hasServer := true, messageId := 1, responseHandlers := [1],
                            buffer := [], initialized := true }).1 1).2 = [] := by
  exact ⟨rfl, rfl, rfl⟩

open HybridMCPClient in
/-- C8 amended: `close()` clears all router state (handler map, buffer,
identifier counter, initialized flag, server handle) but settles no pending
call: it emits no settlement events, so no cancellation error reaches any
waiter, and any armed per-call timeout that fires after the close finds no
registered handler and also settles nothing — still-pending waiters are left
unresolved rather than failed. -/
theorem c8_close_clears_state_but_settles_nothing (s : ClientState) :
    (close s).2 = []
    ∧ (close s).1.responseHandlers = []
    ∧ (close s).1.buffer = []
    ∧ (close s).1.messageId = 0
    ∧ (close s).1.initialized = false
    ∧ (close s).1.hasServer = false
    ∧ (∀ id : Nat, (timeoutFire (close s).1 id).2 = []
        ∧ (handleResponse (close s).1 ⟨id, none, none⟩).2 = []) := by
  refine ⟨rfl, rfl, rfl, rfl, rfl, rfl, ?_⟩
  intro id
  constructor
  · unfold timeoutFire
    rw [if_neg]
    simp [close, cleanupClient]
  · unfold handleResponse
    rw [if_neg]
    simp [close, cleanupClient]

/-! ### Frame-reader lemmas -/

namespace HybridMCPClient

theorem splitNl_ne_nil (l : List Char) : splitNl l ≠ [] := by
  cases l with
  | nil => simp [splitNl]
  | cons c rest =>
      unfold splitNl
      cases h : splitNl rest with
      | nil => simp
      | cons s ss => by_cases hc : c = '\n' <;> simp [hc]

theorem splitNl_cons_newline (l : List Char) :
    splitNl ('\n' :: l) = [] :: splitNl l := by
  have hdef : splitNl ('\n' :: l) =
      match splitNl l with
      | [] => [[]]
      | seg :: segs => if '\n' = '\n' then [] :: seg :: segs else ('\n' :: seg) :: segs := rfl
  rw [hdef]
  cases h : splitNl l with
  | nil => exact absurd h (splitNl_ne_nil l)
  | cons s ss => simp

theorem splitNl_cons_other {c : Char} (hc : c ≠ '\n') (l : List Char)
    {s : List Char} {ss : List (List Char)} (h : splitNl l = s :: ss) :
    splitNl (c :: l) = (c :: s) :: ss := by
  have hdef : splitNl (c :: l) =
      match splitNl l with
      | [] => [[]]
      | seg :: segs => if c = '\n' then [] :: seg :: segs else (c :: seg) :: segs := rfl
  rw [hdef, h]
  simp [hc]

/-- Join a leading fragment onto the first segment of a split. -/
def glue (x : List Char) : List (List Char) → List (List Char)
  | [] => [x]
  | s :: ss => (x ++ s) :: ss

theorem splitNl_append (a b : List Char) :
    splitNl (a ++ b) =
      (splitNl a).dropLast ++ glue (((splitNl a).getLast?).getD []) (splitNl b) := by
  induction a with
  | nil =>
      obtain ⟨t, ts, hb⟩ := List.exists_cons_of_ne_nil (splitNl_ne_nil b)
      simp [splitNl, hb, glue]
  | cons c a ih =>
      obtain ⟨s, ss, hA⟩ := List.exists_cons_of_ne_nil (splitNl_ne_nil a)
      by_cases hc : c = '\n'
      · subst hc
        rw [List.cons_append, splitNl_cons_newline, splitNl_cons_newline, ih, hA]
        cases ss with
        | nil =>
            obtain ⟨t, ts, hb⟩ := List.exists_cons_of_ne_nil (splitNl_ne_nil b)
            simp [hb, glue]
        | cons s1 ss1 => simp
      · rw [List.cons_append]
        cases ss with
        | nil =>
            obtain ⟨t, ts, hb⟩ := List.exists_cons_of_ne_nil (splitNl_ne_nil b)
            have hab : splitNl (a ++ b) = (s ++ t) :: ts := by
              rw [ih, hA, hb]
              simp [glue]
            rw [splitNl_cons_other hc _ hab, splitNl_cons_other hc _ hA, hb]
            simp [glue]
        | cons s1 ss1 =>
            have hab : splitNl (a ++ b) =
                s :: ((s1 :: ss1).dropLast ++
                  glue (((s1 :: ss1).getLast?).getD []) (splitNl b)) := by
              rw [ih, hA]
              simp [List.getLast?_cons_cons]
            rw [splitNl_cons_other hc _ hab, splitNl_cons_other hc _ hA]
            simp [List.getLast?_cons_cons]

theorem splitNl_no_newline (l : List Char) (h : ∀ c ∈ l, c ≠ '\n') :
    splitNl l = [l] := by
  induction l with
  | nil => rfl
  | cons c rest ih =>
      have hc : c ≠ '\n' := h c (by simp)
      have hrest : splitNl rest = [rest] := ih (fun x hx => h x (by simp [hx]))
      rw [splitNl_cons_other hc _ hrest]

theorem splitNl_getLast_no_newline (l : List Char) :
    ∀ c ∈ ((splitNl l).getLast?).getD [], c ≠ '\n' := by
  induction l with
  | nil => simp [splitNl]
  | cons c rest ih =>
      obtain ⟨s, ss, hr⟩ := List.exists_cons_of_ne_nil (splitNl_ne_nil rest)
      by_cases hc : c = '\n'
      · subst hc
        rw [splitNl_cons_newline, hr]
        rw [hr] at ih
        simpa [List.getLast?_cons_cons] using ih
      · rw [splitNl_cons_other hc _ hr]
        rw [hr] at ih
        cases ss with
        | nil =>
            intro x hx
            simp only [List.getLast?_singleton, Option.getD_some] at hx ih
            rcases List.mem_cons.mp hx with hx | hx
            · exact hx ▸ hc
            · exact ih x hx
        | cons s1 ss1 =>
            simpa [List.getLast?_cons_cons] using ih

theorem handleResponse_buffer_set (s : ClientState) (b : List Char) (r : MCPResponse) :
    handleResponse { s with buffer := b } r =
      ({ (handleResponse s r).1 with buffer := b }, (handleResponse s r).2) := by
  by_cases h : r.id ≠ 0 ∧ r.id ∈ s.responseHandlers
  · simp [handleResponse, h]
  · simp [handleResponse, h]

theorem processLine_buffer_set (parse : List Char → Option MCPResponse)
    (s : ClientState) (b : List Char) (line : List Char) :
    processLine parse { s with buffer := b } line =
      ({ (processLine parse s line).1 with buffer := b }, (processLine parse s line).2) := by
  unfold processLine
  by_cases ha : line.any (fun c => !c.isWhitespace)
  · cases hp : parse line with
    | some r => simp [ha, hp, handleResponse_buffer_set]
    | none => simp [ha, hp]
  · simp [ha]

theorem processLines_buffer_set (parse : List Char → Option MCPResponse)
    (ls : List (List Char)) : ∀ (s : ClientState) (b : List Char),
    processLines parse { s with buffer := b } ls =
      ({ (processLines parse s ls).1 with buffer := b }, (processLines parse s ls).2) := by
  induction ls with
  | nil => intro s b; rfl
  | cons line rest ih =>
      intro s b
      simp only [processLines]
      rw [processLine_buffer_set, ih]

theorem processLines_append (parse : List Char → Option MCPResponse)
    (l1 l2 : List (List Char)) : ∀ s : ClientState,
    processLines parse s (l1 ++ l2) =
      ((processLines parse (processLines parse s l1).1 l2).1,
       (processLines parse s l1).2 ++ (processLines parse (processLines parse s l1).1 l2).2) := by
  induction l1 with
  | nil => intro s; simp [processLines]
  | cons line rest ih =>
      intro s
      simp only [List.cons_append, processLines, List.append_eq]
      rw [ih]
      simp [List.append_assoc]

theorem handleData_eq (parse : List Char → Option MCPResponse)
    (s : ClientState) (d : List Char) :
    handleData parse s d =
      ({ (processLines parse s ((splitNl (s.buffer ++ d)).dropLast)).1 with
          buffer := ((splitNl (s.buffer ++ d)).getLast?).getD [] },
       (processLines parse s ((splitNl (s.buffer ++ d)).dropLast)).2) := by
  unfold handleData
  rw [processLines_buffer_set]

theorem handleResponse_buffer (s : ClientState) (r : MCPResponse) :
    (handleResponse s r).1.buffer = s.buffer := by
  unfold handleResponse
  split
  · rfl
  · rfl

theorem processLine_buffer (parse : List Char → Option MCPResponse)
    (s : ClientState) (line : List Char) :
    (processLine parse s line).1.buffer = s.buffer := by
  unfold processLine
  by_cases ha : line.any (fun c => !c.isWhitespace)
  · cases hp : parse line with
    | some r => simp [ha, hp, handleResponse_buffer]
    | none => simp [ha, hp]
  · simp [ha]

theorem processLines_buffer (parse : List Char → Option MCPResponse)
    (ls : List (List Char)) : ∀ s : ClientState,
    (processLines parse s ls).1.buffer = s.buffer := by
  induction ls with
  | nil => intro s; rfl
  | cons line rest ih =>
      intro s
      simp only [processLines]
      rw [ih, processLine_buffer]

theorem handleData_buffer (parse : List Char → Option MCPResponse)
    (s : ClientState) (d : List Char) :
    (handleData parse s d).1.buffer = ((splitNl (s.buffer ++ d)).getLast?).getD [] := by
  rw [handleData_eq]

theorem handleData_append (parse : List Char → Option MCPResponse)
    (s : ClientState) (d1 d2 : List Char) :
    handleData parse s (d1 ++ d2) =
      ((handleData parse (handleData parse s d1).1 d2).1,
       (handleData parse s d1).2 ++ (handleData parse (handleData parse s d1).1 d2).2) := by
  have hlastA := splitNl_getLast_no_newline (s.buffer ++ d1)
  have hglue : splitNl ((((splitNl (s.buffer ++ d1)).getLast?).getD []) ++ d2) =
      glue (((splitNl (s.buffer ++ d1)).getLast?).getD []) (splitNl d2) := by
    rw [splitNl_append, splitNl_no_newline _ hlastA]
    simp [glue]
  have hsB := splitNl_ne_nil ((((splitNl (s.buffer ++ d1)).getLast?).getD []) ++ d2)
  have hsplitT : splitNl (s.buffer ++ (d1 ++ d2)) =
      (splitNl (s.buffer ++ d1)).dropLast ++
        splitNl ((((splitNl (s.buffer ++ d1)).getLast?).getD []) ++ d2) := by
    rw [← List.append_assoc, splitNl_append (s.buffer ++ d1) d2, hglue]
  have hX : (handleData parse s d1).1 =
      { (processLines parse s ((splitNl (s.buffer ++ d1)).dropLast)).1 with
        buffer := ((splitNl (s.buffer ++ d1)).getLast?).getD [] } := by
    rw [handleData_eq]
  have hXev : (handleData parse s d1).2 =
      (processLines parse s ((splitNl (s.buffer ++ d1)).dropLast)).2 := by
    rw [handleData_eq]
  rw [handleData_eq parse s (d1 ++ d2)]
  rw [hX, hXev]
  rw [handleData_eq parse _ d2]
  dsimp only
  rw [hsplitT]
  rw [List.dropLast_append_of_ne_nil _ hsB, List.getLast?_append_of_ne_nil _ hsB]
  rw [processLines_append]
  simp only [processLines_buffer_set]

theorem processLine_parse_fail (parse : List Char → Option MCPResponse)
    (s : ClientState) (line : List Char) (h : parse line = none) :
    processLine parse s line = (s, []) := by
  unfold processLine
  by_cases ha : line.any (fun c => !c.isWhitespace)
  · simp [ha, h]
  · simp [ha]

theorem processLines_all_fail (parse : List Char → Option MCPResponse)
    (ls : List (List Char)) (h : ∀ l, parse l = none) : ∀ s : ClientState,
    processLines parse s ls = (s, []) := by
  induction ls with
  | nil => intro s; rfl
  | cons line rest ih =>
      intro s
      simp [processLines, processLine_parse_fail parse s line (h line), ih]

end HybridMCPClient

open HybridMCPClient in
/-- C9: the frame reader appends each chunk to the accumulator, splits on the
newline character, runs the parse-and-dispatch loop over exactly the complete
segments and keeps the final (possibly empty) segment as the new accumulator;
processing two chunks one after the other is identical to processing their
concatenation (so messages split across chunk boundaries are reassembled and a
chunk carrying several messages yields them all); and a candidate that fails
structural parsing is silently discarded — it settles no pending call, changes
no state and raises no error. -/
theorem c9_frame_reader_splits_reassembles_discards
    (parse : List Char → Option MCPResponse) (s : ClientState)
    (d d1 d2 line : List Char) :
    handleData parse s d =
      ({ (processLines parse s ((splitNl (s.buffer ++ d)).dropLast)).1 with
          buffer := ((splitNl (s.buffer ++ d)).getLast?).getD [] },
       (processLines parse s ((splitNl (s.buffer ++ d)).dropLast)).2)
    ∧ (handleData parse s d).1.buffer = ((splitNl (s.buffer ++ d)).getLast?).getD []
    ∧ handleData parse s (d1 ++ d2) =
        ((handleData parse (handleData parse s d1).1 d2).1,
         (handleData parse s d1).2 ++ (handleData parse (handleData parse s d1).1 d2).2)
    ∧ (parse line = none → processLine parse s line = (s, []))
    ∧ ((∀ l, parse l = none) →
        handleData parse s d =
          ({ s with buffer := ((splitNl (s.buffer ++ d)).getLast?).getD [] }, [])) := by
  refine ⟨handleData_eq parse s d, handleData_buffer parse s d,
    handleData_append parse s d1 d2, ?_, ?_⟩
  · intro h
    exact processLine_parse_fail parse s line h
  · intro h
    unfold handleData
    rw [processLines_all_fail parse _ h]

open HybridMCPClient in
/-- C9 witness: a chunk carrying the tail of a buffered partial line, a
newline, and the start of a new partial line, under a parser that rejects
everything: the accumulator becomes the trailing fragment and nothing is
settled or mutated. -/
theorem c9_witness :
    handleData (fun _ => none)
        { hasServer := true, messageId := 2, responseHandlers := [1, 2],
          buffer := ['a'], initialized := true } ['b', '\n', 'c'] =
      ({ hasServer := true, messageId := 2, responseHandlers := [1, 2],
         buffer := ['c'], initialized := true }, []) := by
  have h := (c9_frame_reader_splits_reassembles_discards (fun _ => none)
      { hasServer := true, messageId := 2, responseHandlers := [1, 2],
        buffer := ['a'], initialized := true }
      ['b', '\n', 'c'] [] [] []).2.2.2.2 (fun l => rfl)
  exact h.trans (by rfl)
